import Mathlib

/-!
Verification of the IPv4 reachability scanner (`main.go`, `ping.go`, `ipfile.go`).

The address expander (`parseCIDR`, `parseIPRange`, `incIP`, `compareIP`) is
modelled at the point where Go's `net.ParseIP` / `net.ParseCIDR` have already
produced the four-byte IPv4 values: an address is a quadruple of bytes, exactly
the `[]byte` the Go code manipulates.  The enumeration loops of the expander are
modelled with explicit fuel, because the Go `for` loops carry no a-priori bound:
a result of `none` means the loop has not exited within `fuel` iterations, and
a statement that the result is `none` for every fuel is a statement that the Go
loop never terminates.

The ping side (`evaluatePingSequence`, `pingWithRetry`, `PingIPsWithConfig`,
`parsePingOutputSuccess`) is modelled with the single probe attempt abstracted
into a boolean outcome function (the code runs the external `ping` binary
there); the retry loop, threshold normalisation, classifier and result
aggregation are translated directly.  The retry loops are additionally
instrumented to report the number of attempts taken and which rule terminated
the campaign, since the specification speaks about both.
-/

/-- An IPv4 address as the four bytes Go stores in a `net.IP` value in `To4`
form.  Byte arithmetic wraps at 256 exactly as Go's `byte` does. -/
structure IPv4 where
  b0 : Fin 256
  b1 : Fin 256
  b2 : Fin 256
  b3 : Fin 256
deriving DecidableEq, Repr

/-- Convenience constructor for address literals. -/
def ip4 (a b c d : Fin 256) : IPv4 := ⟨a, b, c, d⟩

/-- The 32-bit value of an address in big-endian byte order, as computed in
`parseIPRange` by `uint32(b[0])<<24 | uint32(b[1])<<16 | uint32(b[2])<<8 | uint32(b[3])`. -/
def IPv4.toVal (ip : IPv4) : Nat :=
  ip.b0.val * 16777216 + ip.b1.val * 65536 + ip.b2.val * 256 + ip.b3.val

/-- The address with the given 32-bit value (big-endian bytes); inverse of
`IPv4.toVal` for values below `2^32`. -/
def ofVal (v : Nat) : IPv4 :=
  ⟨⟨v / 16777216 % 256, Nat.mod_lt _ (by norm_num)⟩,
   ⟨v / 65536 % 256, Nat.mod_lt _ (by norm_num)⟩,
   ⟨v / 256 % 256, Nat.mod_lt _ (by norm_num)⟩,
   ⟨v % 256, Nat.mod_lt _ (by norm_num)⟩⟩

/-- `incIP` from `main.go`: increment the last byte; on wrap to zero carry into
the previous byte, and so on.  `255.255.255.255` wraps to `0.0.0.0`. -/
def incIP (ip : IPv4) : IPv4 :=
  let n3 : Fin 256 := ip.b3 + 1
  if n3 ≠ 0 then ⟨ip.b0, ip.b1, ip.b2, n3⟩
  else
    let n2 : Fin 256 := ip.b2 + 1
    if n2 ≠ 0 then ⟨ip.b0, ip.b1, n2, n3⟩
    else
      let n1 : Fin 256 := ip.b1 + 1
      if n1 ≠ 0 then ⟨ip.b0, n1, n2, n3⟩
      else ⟨ip.b0 + 1, n1, n2, n3⟩

/-- `compareIP` from `main.go`: byte-wise lexicographic comparison, returning
`1` when `a > b`, `-1` when `a < b` and `0` when equal. -/
def compareIP (a b : IPv4) : Int :=
  if a.b0 > b.b0 then 1 else if a.b0 < b.b0 then -1 else
  if a.b1 > b.b1 then 1 else if a.b1 < b.b1 then -1 else
  if a.b2 > b.b2 then 1 else if a.b2 < b.b2 then -1 else
  if a.b3 > b.b3 then 1 else if a.b3 < b.b3 then -1 else 0

/-- The expansion errors of `main.go` (`InconsistentRange` is the Go error
`起始IP不能大于结束IP`, `RangeTooLarge` the two `…IP数量过多…` errors). -/
inductive ExpandError where
  | inconsistentRange
  | rangeTooLarge
deriving DecidableEq, Repr

/-- The enumeration loop of `parseIPRange`
(`for compareIP(current, endBytes) <= 0 { append current; incIP(current) }`),
with explicit fuel: `none` means the loop has not exited within `fuel`
iterations. -/
def rangeLoop (fuel : Nat) (current endB : IPv4) (acc : List IPv4) : Option (List IPv4) :=
  match fuel with
  | 0 => none
  | fuel + 1 =>
    if compareIP current endB ≤ 0 then
      rangeLoop fuel (incIP current) endB (acc ++ [current])
    else
      some acc

/-- `parseIPRange` from `main.go`, modelled from the point where both endpoint
strings have been parsed to IPv4 byte quadruples (`net.ParseIP` + `To4`).
The count is computed in `uint32` arithmetic exactly as the Go code does
(`count := uint64(endVal - startVal + 1)` with `endVal`, `startVal : uint32`),
so it wraps modulo `2^32`. -/
def parseIPRange (fuel : Nat) (startB endB : IPv4) : Option (Except ExpandError (List IPv4)) :=
  if compareIP startB endB > 0 then some (Except.error ExpandError.inconsistentRange)
  else
    let startVal := startB.toVal
    let endVal := endB.toVal
    let count := ((endVal + 4294967296 - startVal) % 4294967296 + 1) % 4294967296
    if count > 1000000 then some (Except.error ExpandError.rangeTooLarge)
    else (rangeLoop fuel startB endB []).map Except.ok

/-- Application of a `/ones` CIDR mask to a 32-bit address value.  Go applies
`net.CIDRMask(ones, 32)` byte-wise with `&`; for a mask of `ones` leading one
bits this clears the low `32-ones` bits, i.e. rounds down to a multiple of
`2^(32-ones)`. -/
def maskApply (ones : Nat) (v : Nat) : Nat :=
  v / 2 ^ (32 - ones) * 2 ^ (32 - ones)

/-- The enumeration loop of `parseCIDR`
(`for ipNet.Contains(current) { append current; incIP(current) }`), with
explicit fuel.  `ipNet.Contains` masks `current` and compares it with the
network address. -/
def cidrLoop (fuel : Nat) (current : IPv4) (ones network : Nat) (acc : List IPv4) : Option (List IPv4) :=
  match fuel with
  | 0 => none
  | fuel + 1 =>
    if maskApply ones current.toVal = network then
      cidrLoop fuel (incIP current) ones network (acc ++ [current])
    else
      some acc

/-- `parseCIDR` from `main.go`, modelled from the point where `net.ParseCIDR`
has produced the IPv4 base address `ip` and the prefix length `ones` (with
`ones ≤ 32`; larger prefixes are rejected by `net.ParseCIDR` itself).
`total := 1 << (32-ones)`; ranges larger than the guard are rejected before any
enumeration, and enumeration starts at `ip.Mask(ipNet.Mask)`. -/
def parseCIDR (fuel : Nat) (ip : IPv4) (ones : Nat) : Option (Except ExpandError (List IPv4)) :=
  let total := 2 ^ (32 - ones)
  if total > 1000000 then some (Except.error ExpandError.rangeTooLarge)
  else
    let network := maskApply ones ip.toVal
    (cidrLoop fuel (ofVal network) ones network []).map Except.ok

/-- `PingConfig` from `ping.go`.  The two durations are Go `time.Duration`
values (an `int64` count of nanoseconds); they pace the real probes and have no
effect on verdicts. -/
structure PingConfig where
  MaxAttempts : Int
  SuccessNeed : Int
  ConsecutiveFailStop : Int
  Timeout : Int
  AttemptInterval : Int
deriving DecidableEq, Repr

/-- `defaultPingConfig` from `ping.go`. -/
def defaultPingConfig : PingConfig :=
  ⟨5, 2, 3, 2000000000, 1000000000⟩

/-- Which rule ended a retry campaign (instrumentation of the exits of
`pingWithRetry`): the success-threshold early exit, the consecutive-failure
early exit, exhaustion of `maxRetries`, or the `maxRetries <= 0` guard that
takes no attempts at all. -/
inductive ExitReason where
  | successThreshold
  | consecFailures
  | exhausted
  | noAttempts
deriving DecidableEq, Repr

/-- The retry loop of `pingWithRetry` (`for i := 0; i < maxRetries; i++`),
with the single probe attempt abstracted as `oc i` (the Go code sets
`ok := err == nil || parsePingOutputSuccess(out)` from the external `ping`
run).  `remaining` is `maxRetries - i`.  Returns the verdict together with the
number of attempts taken and the rule that produced the verdict. -/
def pingRetryLoop (oc : Nat → Bool) (successNeed consecFailStop : Int)
    (i remaining : Nat) (successes consecFails : Int) : Bool × Nat × ExitReason :=
  match remaining with
  | 0 => (decide (successNeed ≤ successes), i, ExitReason.exhausted)
  | r + 1 =>
    if oc i then
      let s := successes + 1
      if successNeed ≤ s then (true, i + 1, ExitReason.successThreshold)
      else if r = 0 then (decide (successNeed ≤ s), i + 1, ExitReason.exhausted)
      else pingRetryLoop oc successNeed consecFailStop (i + 1) r s 0
    else
      let c := consecFails + 1
      if consecFailStop ≤ c then (false, i + 1, ExitReason.consecFailures)
      else if r = 0 then (decide (successNeed ≤ successes), i + 1, ExitReason.exhausted)
      else pingRetryLoop oc successNeed consecFailStop (i + 1) r successes c

/-- `pingWithRetry` from `ping.go`: reject `maxRetries <= 0` with zero
attempts, normalise `successNeed <= 0` to `1` and `consecFailStop <= 0` to
`math.MaxInt32`, then run the retry loop. -/
def pingWithRetry (oc : Nat → Bool) (cfg : PingConfig) : Bool × Nat × ExitReason :=
  if cfg.MaxAttempts ≤ 0 then (false, 0, ExitReason.noAttempts)
  else
    let successNeed := if cfg.SuccessNeed ≤ 0 then 1 else cfg.SuccessNeed
    let consecFailStop := if cfg.ConsecutiveFailStop ≤ 0 then 2147483647 else cfg.ConsecutiveFailStop
    pingRetryLoop oc successNeed consecFailStop 0 cfg.MaxAttempts.toNat 0 0

/-- The loop of `evaluatePingSequence` from `ping.go`, instrumented to also
return the number of attempts taken (`attempts` in the Go code). -/
def evalPingLoop (maxAttempts successNeed consecFailStop : Int) :
    List Bool → Int → Int → Int → Bool × Int
  | [], successes, _, attempts => (decide (successNeed ≤ successes), attempts)
  | r :: rest, successes, consecFails, attempts =>
    if maxAttempts ≤ attempts then (decide (successNeed ≤ successes), attempts)
    else
      let attempts := attempts + 1
      if r then
        let successes := successes + 1
        if successNeed ≤ successes then (true, attempts)
        else evalPingLoop maxAttempts successNeed consecFailStop rest successes 0 attempts
      else
        let consecFails := consecFails + 1
        if consecFailStop ≤ consecFails then (false, attempts)
        else evalPingLoop maxAttempts successNeed consecFailStop rest successes consecFails attempts

/-- `evaluatePingSequence` from `ping.go`: the verdict component of the loop,
started from zero counters. -/
def evaluatePingSequence (results : List Bool) (maxAttempts successNeed consecFailStop : Int) : Bool :=
  (evalPingLoop maxAttempts successNeed consecFailStop results 0 0 0).1

/-- ASCII word characters, the `\b` / `\w` class of Go's RE2 regexps. -/
def isWordCh (c : Char) : Bool :=
  c.isDigit || ('a' ≤ c && c ≤ 'z') || ('A' ≤ c && c ≤ 'Z') || c == '_'

/-- The `\s` class of Go's RE2 regexps: `[\t\n\f\r ]`. -/
def isWsChar (c : Char) : Bool :=
  c == ' ' || c == '\t' || c == '\n' || c == '\x0c' || c == '\r'

/-- Drop an exact literal from the front of a character list, or fail. -/
def dropLit : List Char → List Char → Option (List Char)
  | [], s => some s
  | _ :: _, [] => none
  | p :: ps, c :: cs => if p = c then dropLit ps cs else none

/-- A `\b` assertion looking right: end of text or a non-word character. -/
def wordBoundaryAfter : List Char → Bool
  | [] => true
  | c :: _ => !isWordCh c

/-- Match `(\d+)\s+received\b` at the current position (the `\b` to the left of
the digits is checked by the scanner), returning the captured digits. -/
def matchRecv (s : List Char) : Option (List Char) :=
  let digits := s.takeWhile Char.isDigit
  if digits.isEmpty then none
  else
    let s1 := s.dropWhile Char.isDigit
    if (s1.takeWhile isWsChar).isEmpty then none
    else
      match dropLit "received".data (s1.dropWhile isWsChar) with
      | none => none
      | some s2 => if wordBoundaryAfter s2 then some digits else none

/-- Match `(\d+)\s+packets\s+received\b` at the current position, returning the
captured digits. -/
def matchPktRecv (s : List Char) : Option (List Char) :=
  let digits := s.takeWhile Char.isDigit
  if digits.isEmpty then none
  else
    let s1 := s.dropWhile Char.isDigit
    if (s1.takeWhile isWsChar).isEmpty then none
    else
      match dropLit "packets".data (s1.dropWhile isWsChar) with
      | none => none
      | some s2 =>
        if (s2.takeWhile isWsChar).isEmpty then none
        else
          match dropLit "received".data (s2.dropWhile isWsChar) with
          | none => none
          | some s3 => if wordBoundaryAfter s3 then some digits else none

/-- Match `(\d+)%\s*packet\s*loss\b` at the current position, returning the
captured digits. -/
def matchLoss (s : List Char) : Option (List Char) :=
  let digits := s.takeWhile Char.isDigit
  if digits.isEmpty then none
  else
    match s.dropWhile Char.isDigit with
    | [] => none
    | c :: rest =>
      if c ≠ '%' then none
      else
        match dropLit "packet".data (rest.dropWhile isWsChar) with
        | none => none
        | some s2 =>
          match dropLit "loss".data (s2.dropWhile isWsChar) with
          | none => none
          | some s3 => if wordBoundaryAfter s3 then some digits else none

/-- Leftmost-match scan (RE2 `FindStringSubmatch`): try the position matcher at
every position whose left context satisfies the leading `\b` (start of text or
a non-word character), left to right, returning the first capture. -/
def scanFor (m : List Char → Option (List Char)) (prev : Option Char) :
    List Char → Option (List Char)
  | [] => none
  | c :: rest =>
    let boundary := match prev with
      | none => true
      | some p => !isWordCh p
    match (if boundary then m (c :: rest) else none) with
    | some d => some d
    | none => scanFor m (some c) rest

/-- Substring containment, `strings.Contains`. -/
def containsSub (needle : List Char) : List Char → Bool
  | [] => needle.isEmpty
  | c :: t => needle.isPrefixOf (c :: t) || containsSub needle t

/-- The rule-3 indicator substrings of `parsePingOutputSuccess`. -/
def pingIndicators : List (List Char) :=
  ["bytes from".data, "ttl=".data, "time=".data, "已接收".data, "来自".data]

/-- Whether any rule-3 indicator occurs in the (lowercased) text. -/
def hasIndicator (low : List Char) : Bool :=
  pingIndicators.any (fun n => containsSub n low)

/-- `parsePingOutputSuccess` from `ping.go`: lowercase the output, then
return success if the first `(\d+)\s+received\b` capture differs from `"0"`,
else if the first `(\d+)\s+packets\s+received\b` capture differs from `"0"`,
else if the first `(\d+)%\s*packet\s*loss\b` capture equals `"0"`, else if any
indicator substring occurs; otherwise failure.  (Lowercasing is ASCII-only
here; all pattern letters and indicators are ASCII or unaffected CJK.) -/
def parsePingOutputSuccess (output : String) : Bool :=
  let low := output.data.map Char.toLower
  if (match scanFor matchRecv none low with
      | some d => d != ['0']
      | none => false) then true
  else if (match scanFor matchPktRecv none low with
      | some d => d != ['0']
      | none => false) then true
  else if (match scanFor matchLoss none low with
      | some d => d == ['0']
      | none => false) then true
  else hasIndicator low

/-- `ipResult` from `ping.go`: one address's verdict as sent on the result
channel. -/
structure ipResult where
  ip : String
  success : Bool
deriving DecidableEq, Repr

/-- The body of the collection loop of `PingIPsWithConfig`: append the arrived
result's address to the success or the failure list. -/
def collectStep (acc : List String × List String) (r : ipResult) : List String × List String :=
  if r.success then (acc.1 ++ [r.ip], acc.2) else (acc.1, acc.2 ++ [r.ip])

/-- The collection loop of `PingIPsWithConfig` (`for res := range resultChan`):
fold the arriving results into the success and failure lists in arrival
order. -/
def collectResults (rs : List ipResult) : List String × List String :=
  rs.foldl collectStep ([], [])

/-- `PingIPsWithConfig` from `ping.go`.  The per-address campaign
(`pingRunner`) is abstracted as `runner`, and the nondeterministic order in
which the concurrent goroutines deliver their `ipResult` on the channel is
abstracted as `arrivals`; theorems about this function constrain `arrivals` to
be a permutation of the launched results (one per input address).  Rejects
`concurrency <= 0` before anything else; an empty input yields two empty
lists. -/
def PingIPsWithConfig (ips : List String) (concurrency : Int) (cfg : PingConfig)
    (runner : String → PingConfig → Bool) (arrivals : List ipResult) :
    Except String (List String × List String) :=
  if concurrency ≤ 0 then Except.error "并发数量必须大于0"
  else if ips.isEmpty then Except.ok ([], [])
  else Except.ok (collectResults arrivals)

/-- `PingIPs` from `ping.go`: `PingIPsWithConfig` with the default policy. -/
def PingIPs (ips : List String) (concurrency : Int)
    (runner : String → PingConfig → Bool) (arrivals : List ipResult) :
    Except String (List String × List String) :=
  PingIPsWithConfig ips concurrency defaultPingConfig runner arrivals

/-- Every four-byte address value is below `2^32`. -/
lemma IPv4.toVal_lt (ip : IPv4) : ip.toVal < 4294967296 := by
  have h0 := ip.b0.isLt; have h1 := ip.b1.isLt; have h2 := ip.b2.isLt; have h3 := ip.b3.isLt
  simp only [IPv4.toVal]; omega

/-- `ofVal` inverts `IPv4.toVal` on values below `2^32`. -/
lemma toVal_ofVal {v : Nat} (h : v < 4294967296) : (ofVal v).toVal = v := by
  simp only [IPv4.toVal, ofVal]; omega

/-- `IPv4.toVal` inverts `ofVal`. -/
lemma ofVal_toVal (ip : IPv4) : ofVal ip.toVal = ip := by
  have h0 := ip.b0.isLt; have h1 := ip.b1.isLt; have h2 := ip.b2.isLt; have h3 := ip.b3.isLt
  simp only [IPv4.toVal, ofVal]
  cases ip with
  | mk a b c d =>
    simp only [IPv4.mk.injEq]
    refine ⟨Fin.ext ?_, Fin.ext ?_, Fin.ext ?_, Fin.ext ?_⟩ <;> simp <;> omega

/-- Value of the byte literal `1`. -/
lemma fin256_val_one : ((1 : Fin 256) : Nat) = 1 := rfl

/-- The byte-wise carry increment `incIP` is addition by one modulo `2^32` on
address values; in particular `255.255.255.255` wraps to `0.0.0.0`. -/
lemma incIP_toVal (ip : IPv4) : (incIP ip).toVal = (ip.toVal + 1) % 4294967296 := by
  have h0 := ip.b0.isLt; have h1 := ip.b1.isLt; have h2 := ip.b2.isLt; have h3 := ip.b3.isLt
  simp only [incIP, IPv4.toVal]
  split_ifs <;>
    (try simp only [Fin.ext_iff, Fin.val_add, Fin.val_zero, fin256_val_one] at *) <;>
    omega

/-- Byte-wise lexicographic comparison agrees with numeric order: `compareIP`
is nonpositive exactly when the 32-bit values are ordered. -/
lemma compareIP_le_iff (a b : IPv4) : compareIP a b ≤ 0 ↔ a.toVal ≤ b.toVal := by
  have ha0 := a.b0.isLt; have ha1 := a.b1.isLt; have ha2 := a.b2.isLt; have ha3 := a.b3.isLt
  have hb0 := b.b0.isLt; have hb1 := b.b1.isLt; have hb2 := b.b2.isLt; have hb3 := b.b3.isLt
  simp only [compareIP, IPv4.toVal, gt_iff_lt, Fin.lt_def]
  split_ifs <;> norm_num <;> omega

/-- `compareIP` is positive exactly when the first address is numerically
larger. -/
lemma compareIP_pos_iff (a b : IPv4) : compareIP a b > 0 ↔ b.toVal < a.toVal := by
  rw [gt_iff_lt, ← not_le, compareIP_le_iff a b]
  omega

/-- The value of the broadcast-of-everything address. -/
lemma toVal_max : (ip4 255 255 255 255).toVal = 4294967295 := rfl

/-- Every address compares less-or-equal to `255.255.255.255`, so the range
loop's exit test can never fire when the range end is `255.255.255.255`. -/
lemma compareIP_le_max (a : IPv4) : compareIP a (ip4 255 255 255 255) ≤ 0 := by
  rw [compareIP_le_iff, toVal_max]
  have := a.toVal_lt
  omega

/-- The enumeration loop of `parseIPRange` never terminates when the range end
is `255.255.255.255`: whatever the fuel, from whatever current address, the
loop condition stays true (after appending `255.255.255.255`, `incIP` wraps the
cursor to `0.0.0.0`, which still compares `<= end`). -/
lemma rangeLoop_max_none (fuel : Nat) :
    ∀ (cur : IPv4) (acc : List IPv4), rangeLoop fuel cur (ip4 255 255 255 255) acc = none := by
  induction fuel with
  | zero => intro cur acc; rfl
  | succ n ih =>
    intro cur acc
    rw [rangeLoop, if_pos (compareIP_le_max cur)]
    exact ih _ _

/-- C1: the claim states that every range whose endpoints parse, with
`start <= end` and `end - start + 1 <= 1,000,000`, expands successfully to
exactly `end - start + 1` ascending addresses.  The code violates this: for
`255.255.255.0-255.255.255.255` (a valid, ordered range of 256 addresses that
passes the guard) the enumeration loop never terminates, because after
appending `255.255.255.255` the cursor wraps to `0.0.0.0`, which still
compares `<= end`.  Whatever the fuel, `parseIPRange` produces neither a list
nor an error. -/
theorem C1_range_end_max_never_returns (fuel : Nat) :
    parseIPRange fuel (ip4 255 255 255 0) (ip4 255 255 255 255) = none := by
  simp only [parseIPRange]
  rw [if_neg (by decide), if_neg (by decide), rangeLoop_max_none]
  rfl

/-- C2: the claim states that the enumeration loop of `parseIPRange`
terminates for every range passing the syntax, parse, ordering and guard
checks, and in particular for ranges whose end is `255.255.255.255`.  The
code violates exactly that highlighted case: for the one-address range
`255.255.255.255-255.255.255.255` (which passes every check, count 1) the
loop never exits, since every address compares `<= 255.255.255.255` and the
wrap of `incIP` brings the cursor back below the end. -/
theorem C2_range_wrap_loop_never_terminates (fuel : Nat) :
    parseIPRange fuel (ip4 255 255 255 255) (ip4 255 255 255 255) = none := by
  simp only [parseIPRange]
  rw [if_neg (by decide), if_neg (by decide), rangeLoop_max_none]
  rfl

/-- C6: the claim states that a range with more than 1,000,000 addresses
always fails with `RangeTooLarge` before any proportional allocation.  The
code violates this for `0.0.0.0-255.255.255.255`: its `2^32` addresses exceed
the guard, but the count computed in `uint32` arithmetic wraps to `0`, the
guard passes, and the enumeration loop then never terminates, so neither the
error nor any list is returned, whatever the fuel. -/
theorem C6_full_range_guard_bypassed (fuel : Nat) :
    parseIPRange fuel (ip4 0 0 0 0) (ip4 255 255 255 255) = none := by
  simp only [parseIPRange]
  rw [if_neg (by decide), if_neg (by decide), rangeLoop_max_none]
  rfl

/-- C3: the claim states that a diagnostic text containing a zero count
immediately before `received` classifies as failure even when a rule-3
indicator such as `ttl=` is also present.  The code violates this: a zero
capture in rule 1 or 2 does not return failure, it merely falls through, and
the indicator scan then returns success.  Evaluating the classifier at the
failing input `"0 received, ttl=54"` yields success. -/
theorem C3_zero_received_with_ttl_classified_success :
    parsePingOutputSuccess "0 received, ttl=54" = true := by decide

/-- C4 counterexample: the claim says `[true, true]` with
`successThreshold = 2` yields reachable after exactly 2 attempts for every
value of `maxAttempts`.  With `maxAttempts = 1` the state machine stops after
1 attempt and returns unreachable, so the claim as stated is false. -/
theorem C4_counterexample_maxAttempts_one :
    evalPingLoop 1 2 3 [true, true] 0 0 0 = (false, 1) ∧
    evaluatePingSequence [true, true] 1 2 3 = false ∧
    ¬(evaluatePingSequence [true, true] 1 2 3 = true ∧
      evalPingLoop 1 2 3 [true, true] 0 0 0 = (true, 2)) := by decide

/-- C4 (amended): for every `maxAttempts >= 2` (and any consecutive-failure
threshold), the sequence `[true, true]` with `successThreshold = 2` yields
reachable after exactly 2 attempts; and for every `maxAttempts >= 3` (and any
success threshold), `[false, false, false]` with
`consecutiveFailureThreshold = 3` yields unreachable after exactly 3
attempts. -/
theorem C4_early_exit_amended :
    (∀ m cfs : Int, 2 ≤ m →
      evaluatePingSequence [true, true] m 2 cfs = true ∧
      evalPingLoop m 2 cfs [true, true] 0 0 0 = (true, 2)) ∧
    (∀ m sn : Int, 3 ≤ m →
      evaluatePingSequence [false, false, false] m sn 3 = false ∧
      evalPingLoop m sn 3 [false, false, false] 0 0 0 = (false, 3)) := by
  constructor
  · intro m cfs hm
    have e1 : ¬ (m ≤ (0:Int)) := by omega
    have e2 : ¬ (m ≤ (1:Int)) := by omega
    have h : evalPingLoop m 2 cfs [true, true] 0 0 0 = (true, 2) := by
      norm_num [evalPingLoop, e1, e2]
    exact ⟨by simp [evaluatePingSequence, h], h⟩
  · intro m sn hm
    have e1 : ¬ (m ≤ (0:Int)) := by omega
    have e2 : ¬ (m ≤ (1:Int)) := by omega
    have e3 : ¬ (m ≤ (2:Int)) := by omega
    have h : evalPingLoop m sn 3 [false, false, false] 0 0 0 = (false, 3) := by
      norm_num [evalPingLoop, e1, e2, e3]
    exact ⟨by simp [evaluatePingSequence, h], h⟩

/-- Witness for `C4_early_exit_amended` at `maxAttempts = 5` and the default
thresholds. -/
theorem C4_early_exit_witness :
    ((2:Int) ≤ 5 ∧ (evaluatePingSequence [true, true] 5 2 3 = true ∧
      evalPingLoop 5 2 3 [true, true] 0 0 0 = (true, 2))) ∧
    ((3:Int) ≤ 5 ∧ (evaluatePingSequence [false, false, false] 5 2 3 = false ∧
      evalPingLoop 5 2 3 [false, false, false] 0 0 0 = (false, 3))) :=
  ⟨⟨by norm_num, C4_early_exit_amended.1 5 3 (by norm_num)⟩,
   ⟨by norm_num, C4_early_exit_amended.2 5 2 (by norm_num)⟩⟩

/-- If the consecutive-failure counter plus the remaining attempts stay below
the stop threshold, the retry loop cannot exit through the
consecutive-failure rule. -/
lemma pingRetryLoop_no_consec (oc : Nat → Bool) (sn stop : Int) :
    ∀ (r i : Nat) (s c : Int), 0 ≤ c → c + r < stop →
      (pingRetryLoop oc sn stop i r s c).2.2 ≠ ExitReason.consecFailures := by
  intro r
  induction r with
  | zero => intro i s c _ _; simp [pingRetryLoop]
  | succ n ih =>
    intro i s c hc hlt
    push_cast at hlt
    simp only [pingRetryLoop]
    by_cases ho : oc i
    · rw [if_pos ho]
      by_cases h1 : sn ≤ s + 1
      · rw [if_pos h1]; simp
      · rw [if_neg h1]
        by_cases h2 : n = 0
        · rw [if_pos h2]; simp
        · rw [if_neg h2]
          exact ih (i + 1) (s + 1) 0 le_rfl (by omega)
    · rw [if_neg ho]
      rw [if_neg (by omega : ¬ (stop ≤ c + 1))]
      by_cases h2 : n = 0
      · rw [if_pos h2]; simp
      · rw [if_neg h2]
        exact ih (i + 1) s (c + 1) (by omega) (by omega)

/-- With every attempt failing, success need 1 and stop threshold
`MaxInt32`, a campaign of `2^31` attempts exits through the
consecutive-failure rule at attempt `2^31 - 1`: the `MaxInt32` sentinel used
for a disabled threshold is reachable. -/
lemma allFailFires :
    ∀ (r i : Nat), 2 ≤ r → i + r = 2147483648 →
      pingRetryLoop (fun _ => false) 1 2147483647 i r 0 (i : Int) =
        (false, 2147483647, ExitReason.consecFailures) := by
  intro r
  induction r with
  | zero => intro i h2 _; omega
  | succ n ih =>
    intro i h2 hsum
    rcases Nat.lt_or_ge n 2 with hn | hn
    · have hn1 : n = 1 := by omega
      subst hn1
      have hi : i = 2147483646 := by omega
      subst hi
      norm_num [pingRetryLoop]
    · simp only [pingRetryLoop]
      rw [if_neg (by simp), if_neg (by omega : ¬ ((2147483647:Int) ≤ (i:Int) + 1)),
          if_neg (by omega : ¬ (n = 0))]
      have h := ih (i + 1) (by omega) (by omega)
      push_cast at h
      convert h using 2

/-- C7 counterexample: the claim says a campaign with the
consecutive-failure threshold disabled (non-positive) can never terminate via
the consecutive-failure rule.  The code implements disabled as
`math.MaxInt32`; with `maxAttempts = 2^31` and every attempt failing, the
rule fires at attempt `2^31 - 1`, before exhaustion at `2^31`. -/
theorem C7_counterexample_consec_rule_fires :
    pingWithRetry (fun _ => false) ⟨2147483648, 1, 0, 2000000000, 1000000000⟩ =
      (false, 2147483647, ExitReason.consecFailures) := by
  have h := allFailFires 2147483648 0 (by norm_num) (by norm_num)
  simp only [pingWithRetry]
  rw [if_neg (by norm_num : ¬ ((2147483648:Int) ≤ 0)), if_neg (by norm_num : ¬ ((1:Int) ≤ 0)),
      if_pos (le_refl (0:Int))]
  exact h

/-- C7 (amended): `maxAttempts <= 0` yields unreachable with zero attempts;
a success threshold below 1 behaves exactly as threshold 1; and with the
consecutive-failure threshold disabled the campaign never terminates via the
consecutive-failure rule provided `maxAttempts < 2^31 - 1` (the `MaxInt32`
sentinel implementing the disabled threshold). -/
theorem C7_policy_normalization_amended :
    (∀ (oc : Nat → Bool) (cfg : PingConfig), cfg.MaxAttempts ≤ 0 →
      pingWithRetry oc cfg = (false, 0, ExitReason.noAttempts)) ∧
    (∀ (oc : Nat → Bool) (cfg : PingConfig) (s : Int), s ≤ 0 →
      pingWithRetry oc { cfg with SuccessNeed := s } =
        pingWithRetry oc { cfg with SuccessNeed := 1 }) ∧
    (∀ (oc : Nat → Bool) (cfg : PingConfig), cfg.ConsecutiveFailStop ≤ 0 →
      cfg.MaxAttempts < 2147483647 →
      (pingWithRetry oc cfg).2.2 ≠ ExitReason.consecFailures) := by
  refine ⟨?_, ?_, ?_⟩
  · intro oc cfg h
    simp [pingWithRetry, h]
  · intro oc cfg s hs
    simp only [pingWithRetry]
    simp [hs]
  · intro oc cfg h1 h2
    by_cases hm : cfg.MaxAttempts ≤ 0
    · simp [pingWithRetry, hm]
    · simp only [pingWithRetry, if_neg hm, if_pos h1]
      exact pingRetryLoop_no_consec oc _ _ _ 0 0 0 le_rfl (by omega)

/-- Witness for `C7_policy_normalization_amended` at concrete
configurations. -/
theorem C7_policy_normalization_witness :
    ((0:Int) ≤ 0 ∧ pingWithRetry (fun _ => true) ⟨0, 2, 3, 0, 0⟩ = (false, 0, ExitReason.noAttempts)) ∧
    ((-1:Int) ≤ 0 ∧ pingWithRetry (fun _ => true) ⟨5, -1, 3, 0, 0⟩ = pingWithRetry (fun _ => true) ⟨5, 1, 3, 0, 0⟩) ∧
    ((0:Int) ≤ 0 ∧ (5:Int) < 2147483647 ∧
      (pingWithRetry (fun _ => false) ⟨5, 2, 0, 0, 0⟩).2.2 ≠ ExitReason.consecFailures) :=
  ⟨⟨le_rfl, C7_policy_normalization_amended.1 (fun _ => true) ⟨0, 2, 3, 0, 0⟩ (by norm_num)⟩,
   ⟨by norm_num, C7_policy_normalization_amended.2.1 (fun _ => true) ⟨5, 37, 3, 0, 0⟩ (-1) (by norm_num)⟩,
   ⟨le_rfl, by norm_num,
    C7_policy_normalization_amended.2.2 (fun _ => false) ⟨5, 2, 0, 0, 0⟩ (by norm_num) (by norm_num)⟩⟩

/-- The enumeration loop of `parseCIDR`, started anywhere inside a block of
`T = 2^(32-ones)` addresses based at the multiple-of-`T` network address `N`
with `k` addresses still to visit, appends exactly those `k` addresses in
ascending order and stops: at the address after the broadcast (or at the wrap
to `0.0.0.0` for the top block) the mask test fails. -/
lemma cidrLoop_run (ones T N m : Nat) (hT : T = 2 ^ (32 - ones)) (hN : N = m * T)
    (hub : N + T ≤ 4294967296) (hsmall : T ≤ 1000000) :
    ∀ (k fuel : Nat) (cur : IPv4) (acc : List IPv4),
      k ≤ T → k + 1 ≤ fuel →
      cur.toVal = (N + T - k) % 4294967296 →
      cidrLoop fuel cur ones N acc =
        some (acc ++ (List.range k).map (fun j => ofVal (N + (T - k) + j))) := by
  have hTpos : 0 < T := by rw [hT]; exact pow_pos (by norm_num) _
  intro k
  induction k with
  | zero =>
    intro fuel cur acc _ hfuel hcur
    obtain ⟨f, rfl⟩ : ∃ f, fuel = f + 1 := ⟨fuel - 1, by omega⟩
    simp only [cidrLoop, maskApply, ← hT]
    rw [if_neg ?hexit]
    · simp
    case hexit =>
      rcases eq_or_lt_of_le hub with heq | hlt
      · have h0 : cur.toVal = 0 := by rw [hcur]; omega
        rw [h0]
        simp only [Nat.zero_div, Nat.zero_mul]
        have hmt : m * T + T = (m + 1) * T := by ring
        omega
      · have h0 : cur.toVal = N + T := by rw [hcur]; omega
        rw [h0]
        have hdiv : (N + T) / T = m + 1 := by
          rw [hN, show m * T + T = (m + 1) * T from by ring]
          exact Nat.mul_div_cancel _ hTpos
        rw [hdiv]
        have hmt : (m + 1) * T = m * T + T := by ring
        omega
  | succ k ih =>
    intro fuel cur acc hk hfuel hcur
    obtain ⟨f, rfl⟩ : ∃ f, fuel = f + 1 := ⟨fuel - 1, by omega⟩
    have hv : cur.toVal = N + T - (k + 1) := by rw [hcur]; omega
    simp only [cidrLoop, maskApply, ← hT]
    rw [if_pos ?hin]
    case hin =>
      rw [hv]
      have hdiv : (N + T - (k + 1)) / T = m := by
        refine Nat.div_eq_of_lt_le (by omega) ?_
        have hmt : (m + 1) * T = m * T + T := by ring
        omega
      rw [hdiv, hN]
    · have hrec := ih f (incIP cur) (acc ++ [cur]) (by omega) (by omega) ?hnext
      case hnext =>
        rw [incIP_toVal, hv]
        omega
      have hcur_eq : cur = ofVal (N + (T - (k + 1)) + 0) := by
        rw [show N + (T - (k + 1)) + 0 = N + T - (k + 1) from by omega, ← hv, ofVal_toVal]
      have hlist : cur :: (List.range k).map (fun j => ofVal (N + (T - k) + j)) =
          (List.range (k + 1)).map (fun j => ofVal (N + (T - (k + 1)) + j)) := by
        rw [List.range_succ_eq_map, List.map_cons, List.map_map]
        congr 1
        exact List.map_congr_left (fun a _ => by
          simp only [Function.comp]
          congr 1
          omega)
      rw [hrec, List.append_assoc, List.singleton_append, hlist]

/-- C5 counterexample: the claim says every valid CIDR `A/N` with
`0 <= N <= 32` expands to `2^(32-N)` addresses, but for `10.0.0.0/12`
(`2^20 = 1048576 > 1,000,000` addresses) the code rejects the block with
`RangeTooLarge` and yields no list at all. -/
theorem C5_counterexample_prefix12_rejected :
    parseCIDR (2 ^ 20 + 1) (ip4 10 0 0 0) 12 = some (Except.error ExpandError.rangeTooLarge) ∧
    ¬∃ l, parseCIDR (2 ^ 20 + 1) (ip4 10 0 0 0) 12 = some (Except.ok l) := by
  constructor
  · rfl
  · rintro ⟨l, hl⟩
    rw [show parseCIDR (2 ^ 20 + 1) (ip4 10 0 0 0) 12 =
      some (Except.error ExpandError.rangeTooLarge) from rfl] at hl
    simp at hl

/-- C5 (amended): for every CIDR `A/N` with `13 <= N <= 32`, i.e. every
block that passes the 1,000,000-address guard, expansion succeeds and yields
exactly `2^(32-N)` distinct addresses in ascending numeric order, the first
being the network address (the base with the mask applied), including both
the network address and the broadcast address `network + 2^(32-N) - 1`. -/
theorem C5_cidr_expansion_amended (ones : Nat) (ip : IPv4) (h13 : 13 ≤ ones) (h32 : ones ≤ 32) :
    ∃ l, parseCIDR (2 ^ (32 - ones) + 1) ip ones = some (Except.ok l) ∧
      l.length = 2 ^ (32 - ones) ∧
      l.Pairwise (fun a b => a.toVal < b.toVal) ∧
      l.Nodup ∧
      l.head? = some (ofVal (maskApply ones ip.toVal)) ∧
      ofVal (maskApply ones ip.toVal) ∈ l ∧
      ofVal (maskApply ones ip.toVal + 2 ^ (32 - ones) - 1) ∈ l := by
  set T := 2 ^ (32 - ones) with hT
  have hTpos : 0 < T := by rw [hT]; exact pow_pos (by norm_num) _
  have hsmall : T ≤ 1000000 := by
    rw [hT]
    calc 2 ^ (32 - ones) ≤ 2 ^ 19 := Nat.pow_le_pow_right (by norm_num) (by omega)
    _ ≤ 1000000 := by norm_num
  have hvlt := ip.toVal_lt
  have hdvd : T ∣ 4294967296 := by
    rw [hT, show (4294967296 : Nat) = 2 ^ 32 from by norm_num]
    exact pow_dvd_pow 2 (by omega)
  set N := maskApply ones ip.toVal with hNdef
  have hNm : N = ip.toVal / T * T := by rw [hNdef, maskApply, ← hT]
  have hub : N + T ≤ 4294967296 := by
    have hq : ip.toVal / T < 4294967296 / T := Nat.div_lt_div_of_lt_of_dvd hdvd hvlt
    have h2 : (ip.toVal / T + 1) * T ≤ 4294967296 / T * T := Nat.mul_le_mul_right T (by omega)
    rw [Nat.div_mul_cancel hdvd] at h2
    have h3 : (ip.toVal / T + 1) * T = ip.toVal / T * T + T := by ring
    omega
  have hNlt : N < 4294967296 := by omega
  have hloop := cidrLoop_run ones T N (ip.toVal / T) hT hNm hub hsmall T (T + 1) (ofVal N) []
    le_rfl le_rfl (by rw [toVal_ofVal hNlt]; omega)
  have hpw : ((List.range T).map (fun j => ofVal (N + j))).Pairwise (fun a b => a.toVal < b.toVal) := by
    rw [List.pairwise_map]
    refine (List.pairwise_lt_range T).imp_of_mem ?_
    intro a b ha hb hlt
    have ha' := List.mem_range.mp ha
    have hb' := List.mem_range.mp hb
    rw [toVal_ofVal (by omega), toVal_ofVal (by omega)]
    omega
  refine ⟨(List.range T).map (fun j => ofVal (N + j)), ?_, ?_, hpw, ?_, ?_, ?_, ?_⟩
  · simp only [parseCIDR, ← hT]
    rw [if_neg (by omega), ← hNdef, hloop]
    simp only [List.nil_append, Option.map_some', Nat.sub_self, Nat.add_zero]
  · simp
  · exact hpw.imp (fun h heq => by rw [heq] at h; exact lt_irrefl _ h)
  · obtain ⟨t, ht⟩ : ∃ t, T = t + 1 := ⟨T - 1, by omega⟩
    rw [ht, List.range_succ_eq_map]
    simp
  · exact List.mem_map.mpr ⟨0, List.mem_range.mpr (by omega), by simp⟩
  · exact List.mem_map.mpr ⟨T - 1, List.mem_range.mpr (by omega), by congr 1; omega⟩

/-- Witness for `C5_cidr_expansion_amended` on the /30 block of
`192.168.18.128`. -/
theorem C5_cidr_expansion_witness :
    (13 ≤ 30 ∧ 30 ≤ 32) ∧
    (∃ l, parseCIDR (2 ^ (32 - 30) + 1) (ip4 192 168 18 128) 30 = some (Except.ok l) ∧
      l.length = 2 ^ (32 - 30) ∧
      l.Pairwise (fun a b => a.toVal < b.toVal) ∧
      l.Nodup ∧
      l.head? = some (ofVal (maskApply 30 (ip4 192 168 18 128).toVal)) ∧
      ofVal (maskApply 30 (ip4 192 168 18 128).toVal) ∈ l ∧
      ofVal (maskApply 30 (ip4 192 168 18 128).toVal + 2 ^ (32 - 30) - 1) ∈ l) :=
  ⟨⟨by norm_num, by norm_num⟩,
   C5_cidr_expansion_amended 30 (ip4 192 168 18 128) (by norm_num) (by norm_num)⟩

/-- Folding the collection step from an arbitrary accumulator appends the
results of folding from the empty accumulator. -/
lemma collectResults_aux :
    ∀ (rs : List ipResult) (s f : List String),
      rs.foldl collectStep (s, f) = (s ++ (collectResults rs).1, f ++ (collectResults rs).2) := by
  intro rs
  induction rs with
  | nil => intro s f; simp [collectResults]
  | cons r rest ih =>
    intro s f
    rw [List.foldl_cons]
    have hunfold : collectResults (r :: rest) = rest.foldl collectStep (collectStep ([], []) r) := by
      simp [collectResults, List.foldl_cons]
    by_cases h : r.success
    · rw [show collectStep (s, f) r = (s ++ [r.ip], f) from by simp [collectStep, h], ih]
      rw [hunfold, show collectStep ([], []) r = ([r.ip], []) from by simp [collectStep, h], ih]
      simp
    · rw [show collectStep (s, f) r = (s, f ++ [r.ip]) from by simp [collectStep, h], ih]
      rw [hunfold, show collectStep ([], []) r = ([], [r.ip]) from by simp [collectStep, h], ih]
      simp

/-- One step of the collection loop: the first arrival is prepended to
whichever output list its verdict selects. -/
lemma collectResults_cons (r : ipResult) (rest : List ipResult) :
    collectResults (r :: rest) =
      if r.success then (r.ip :: (collectResults rest).1, (collectResults rest).2)
      else ((collectResults rest).1, r.ip :: (collectResults rest).2) := by
  have hunfold : collectResults (r :: rest) = rest.foldl collectStep (collectStep ([], []) r) := by
    simp [collectResults, List.foldl_cons]
  by_cases h : r.success
  · rw [hunfold, show collectStep ([], []) r = ([r.ip], []) from by simp [collectStep, h],
      collectResults_aux, if_pos h]
    simp
  · rw [hunfold, show collectStep ([], []) r = ([], [r.ip]) from by simp [collectStep, h],
      collectResults_aux, if_neg h]
    simp

/-- The two collected lists together are a permutation of the arrived
addresses. -/
lemma collectResults_perm (rs : List ipResult) :
    ((collectResults rs).1 ++ (collectResults rs).2).Perm (rs.map ipResult.ip) := by
  induction rs with
  | nil => simp [collectResults]
  | cons r rest ih =>
    rw [collectResults_cons]
    by_cases h : r.success
    · rw [if_pos h]
      simpa using ih.cons r.ip
    · rw [if_neg h]
      refine List.Perm.trans ?_ (ih.cons r.ip)
      exact List.perm_middle

/-- C8: for every input list, concurrency above zero, policy and campaign
function, and every order in which the per-address results can arrive on the
result channel (any permutation of the launched results, one per input
address), the session succeeds and returns two lists that together are a
permutation of the input; when the input is duplicate-free every input
address lands in exactly one of the two lists. -/
theorem C8_partition_complete (ips : List String) (concurrency : Int) (cfg : PingConfig)
    (runner : String → PingConfig → Bool) (arrivals : List ipResult)
    (hc : 0 < concurrency)
    (ha : arrivals.Perm (ips.map (fun a => ⟨a, runner a cfg⟩))) :
    ∃ succIPs failIPs,
      PingIPsWithConfig ips concurrency cfg runner arrivals = Except.ok (succIPs, failIPs) ∧
      (succIPs ++ failIPs).Perm ips ∧
      (ips.Nodup → ∀ a ∈ ips, (a ∈ succIPs ∧ a ∉ failIPs) ∨ (a ∈ failIPs ∧ a ∉ succIPs)) := by
  have hperm : ((collectResults arrivals).1 ++ (collectResults arrivals).2).Perm ips := by
    refine (collectResults_perm arrivals).trans ?_
    have hm := ha.map ipResult.ip
    rw [List.map_map,
      show (ipResult.ip ∘ fun a => ({ ip := a, success := runner a cfg } : ipResult)) = fun a => a from
        funext fun a => rfl, List.map_id'] at hm
    exact hm
  by_cases hips : ips.isEmpty
  · have hnil : ips = [] := List.isEmpty_iff.mp hips
    subst hnil
    refine ⟨[], [], ?_, by simp, by simp⟩
    unfold PingIPsWithConfig
    rw [if_neg (by omega : ¬ (concurrency ≤ 0))]
    rfl
  · refine ⟨(collectResults arrivals).1, (collectResults arrivals).2, ?_, hperm, ?_⟩
    · unfold PingIPsWithConfig
      rw [if_neg (by omega : ¬ (concurrency ≤ 0)), if_neg hips]
    · intro hnd a hmem
      have hnd2 : ((collectResults arrivals).1 ++ (collectResults arrivals).2).Nodup :=
        hperm.nodup_iff.mpr hnd
      have hmem2 : a ∈ (collectResults arrivals).1 ++ (collectResults arrivals).2 :=
        hperm.mem_iff.mpr hmem
      have hdisj := List.disjoint_of_nodup_append hnd2
      rcases List.mem_append.mp hmem2 with h1 | h2
      · exact Or.inl ⟨h1, fun h2 => hdisj h1 h2⟩
      · exact Or.inr ⟨h2, fun h1 => hdisj h1 h2⟩

/-- Witness for `C8_partition_complete` on a two-address session with the
arrivals in reversed order. -/
theorem C8_partition_witness :
    ((0:Int) < 2 ∧
      ([⟨"10.0.0.2", false⟩, ⟨"10.0.0.1", true⟩] : List ipResult).Perm
        (["10.0.0.1", "10.0.0.2"].map
          (fun a => ⟨a, (fun b (_ : PingConfig) => b == "10.0.0.1") a defaultPingConfig⟩))) ∧
    (∃ succIPs failIPs,
      PingIPsWithConfig ["10.0.0.1", "10.0.0.2"] 2 defaultPingConfig
        (fun b (_ : PingConfig) => b == "10.0.0.1")
        [⟨"10.0.0.2", false⟩, ⟨"10.0.0.1", true⟩] = Except.ok (succIPs, failIPs) ∧
      (succIPs ++ failIPs).Perm ["10.0.0.1", "10.0.0.2"] ∧
      (["10.0.0.1", "10.0.0.2"].Nodup → ∀ a ∈ ["10.0.0.1", "10.0.0.2"],
        (a ∈ succIPs ∧ a ∉ failIPs) ∨ (a ∈ failIPs ∧ a ∉ succIPs))) :=
  ⟨⟨by norm_num, by decide⟩,
   C8_partition_complete ["10.0.0.1", "10.0.0.2"] 2 defaultPingConfig
     (fun b _ => b == "10.0.0.1") [⟨"10.0.0.2", false⟩, ⟨"10.0.0.1", true⟩]
     (by norm_num) (by decide)⟩

/-- C9: the session fails with the invalid-concurrency error exactly when the
concurrency ceiling is nonpositive, independently of the addresses, policy,
campaign function and arrivals (so before any campaign is consulted); and an
empty input with positive concurrency yields two empty lists and no error. -/
theorem C9_invalid_concurrency_and_empty :
    (∀ (ips : List String) (concurrency : Int) (cfg : PingConfig)
        (runner : String → PingConfig → Bool) (arrivals : List ipResult),
      concurrency ≤ 0 →
      PingIPsWithConfig ips concurrency cfg runner arrivals = Except.error "并发数量必须大于0") ∧
    (∀ (concurrency : Int) (cfg : PingConfig)
        (runner : String → PingConfig → Bool) (arrivals : List ipResult),
      0 < concurrency →
      PingIPsWithConfig [] concurrency cfg runner arrivals = Except.ok ([], [])) := by
  constructor
  · intro ips concurrency cfg runner arrivals h
    unfold PingIPsWithConfig
    rw [if_pos h]
  · intro concurrency cfg runner arrivals h
    unfold PingIPsWithConfig
    rw [if_neg (by omega : ¬ (concurrency ≤ 0))]
    rfl

/-- Witness for `C9_invalid_concurrency_and_empty` at concurrency 0 and at
concurrency 3 with no addresses. -/
theorem C9_witness :
    ((0:Int) ≤ 0 ∧ PingIPsWithConfig ["10.0.0.1"] 0 defaultPingConfig (fun _ _ => true) [] =
      Except.error "并发数量必须大于0") ∧
    ((0:Int) < 3 ∧ PingIPsWithConfig [] 3 defaultPingConfig (fun _ _ => true) [] =
      Except.ok ([], [])) :=
  ⟨⟨le_rfl, C9_invalid_concurrency_and_empty.1 ["10.0.0.1"] 0 defaultPingConfig (fun _ _ => true) [] le_rfl⟩,
   ⟨by norm_num, C9_invalid_concurrency_and_empty.2 3 defaultPingConfig (fun _ _ => true) [] (by norm_num)⟩⟩
